import Mathlib

/-!
# QuickCut backend — verification of the key-space / lifecycle layer

A shallow embedding of the storage-key utilities (`utils/sanitize.ts`), the
validation service (`services/validation.service.ts`), and the S3 media
service (`services/s3.service.ts`) of the QuickCut backend, together with
proofs about the spec's claims.

JavaScript strings are modelled as `List Char` (named `Str` below); the
regex-based transformations of the source are embedded as explicit
character-list functions.  Stateful interaction with the object store is
modelled by an oracle (`Store`) that decides which store calls succeed, and
each store-touching operation returns the list of store commands it issued
(its trace) together with its result.
-/

/-- JS strings are modelled as lists of characters. -/
abbrev Str := List Char

/-! ## Character classes (ASCII, as used by the source's regexes) -/

/-- `[a-zA-Z0-9]` -/
def isAsciiAlnum (c : Char) : Bool :=
  (48 ≤ c.toNat && c.toNat ≤ 57) || (65 ≤ c.toNat && c.toNat ≤ 90) ||
    (97 ≤ c.toNat && c.toNat ≤ 122)

/-- `[0-9]` -/
def isAsciiDigit (c : Char) : Bool := 48 ≤ c.toNat && c.toNat ≤ 57

/-- JS `\s` restricted to ASCII: space, tab, LF, VT, FF, CR. -/
def isJsWs (c : Char) : Bool :=
  c.toNat = 32 || c.toNat = 9 || c.toNat = 10 || c.toNat = 11 ||
    c.toNat = 12 || c.toNat = 13

/-- Control characters removed by `sanitizeFilename`: `[\x00-\x1F\x7F]`. -/
def isControlChar (c : Char) : Bool := c.toNat ≤ 31 || c.toNat = 127

/-- Character class of the `USER_ID_PATTERN` regex `[a-zA-Z0-9_-]`. -/
def isUserIdChar (c : Char) : Bool :=
  isAsciiAlnum c || c.toNat = 95 || c.toNat = 45

/-- Character class `[a-zA-Z0-9_\-\. \/]` of `FILENAME_PATTERN`. -/
def isFilenameBodyChar (c : Char) : Bool :=
  isAsciiAlnum c || c.toNat = 95 || c.toNat = 45 || c.toNat = 46 ||
    c.toNat = 32 || c.toNat = 47

/-- Character class `[a-zA-Z0-9-]` (the fileId segment of `S3_KEY_PATTERN`). -/
def isFileIdChar (c : Char) : Bool := isAsciiAlnum c || c.toNat = 45

/-- Character class `[a-zA-Z0-9_\-\. ]` (the filename segment of
`S3_KEY_PATTERN`; no slash). -/
def isKeyFilenameChar (c : Char) : Bool :=
  isAsciiAlnum c || c.toNat = 95 || c.toNat = 45 || c.toNat = 46 ||
    c.toNat = 32

/-- ASCII embedding of JS `String.prototype.toLowerCase` on one character. -/
def lowerChar : Char → Char
  | 'A' => 'a' | 'B' => 'b' | 'C' => 'c' | 'D' => 'd' | 'E' => 'e'
  | 'F' => 'f' | 'G' => 'g' | 'H' => 'h' | 'I' => 'i' | 'J' => 'j'
  | 'K' => 'k' | 'L' => 'l' | 'M' => 'm' | 'N' => 'n' | 'O' => 'o'
  | 'P' => 'p' | 'Q' => 'q' | 'R' => 'r' | 'S' => 's' | 'T' => 't'
  | 'U' => 'u' | 'V' => 'v' | 'W' => 'w' | 'X' => 'x' | 'Y' => 'y'
  | 'Z' => 'z' | c => c

/-- `toLowerCase` on a string. -/
def lowerStr (s : Str) : Str := s.map lowerChar

/-! ## Generic string helpers (embeddings of JS string methods) -/

/-- JS `String.prototype.trim` (both ends, ASCII whitespace). -/
def trimStr (s : Str) : Str :=
  ((s.dropWhile isJsWs).reverse.dropWhile isJsWs).reverse

/-- JS `s.split(sep)` for a single-character separator: `"".split` is
`[""]`, separators at the ends produce empty fields. -/
def splitOnChar (sep : Char) : Str → List Str
  | [] => [[]]
  | c :: rest =>
    match splitOnChar sep rest with
    | [] => [[]]
    | w :: ws => if c = sep then [] :: w :: ws else (c :: w) :: ws

/-- JS `parts.join("/")`. -/
def joinSlash (ps : List Str) : Str := List.intercalate ['/'] ps

/-- Index of the last occurrence of `c` (JS `lastIndexOf`, `none` for -1). -/
def lastIndexOfChar (c : Char) : Str → Option Nat
  | [] => none
  | a :: rest =>
    match lastIndexOfChar c rest with
    | some i => some (i + 1)
    | none => if a = c then some 0 else none

/-- JS `s.includes(pat)`: `pat` occurs as a contiguous substring of `s`. -/
def isSubstringOf (pat : Str) : Str → Bool
  | [] => pat.isEmpty
  | c :: rest => pat.isPrefixOf (c :: rest) || isSubstringOf pat rest

/-- One step of collapsing whitespace runs: JS `s.replace(/\s+/g, repl)`
for a one-character replacement `repl`.  `prevWs` records whether the
previous character belonged to a whitespace run already replaced. -/
def collapseRunsAux (repl : Char) (prevWs : Bool) : Str → Str
  | [] => []
  | c :: rest =>
    if isJsWs c then
      (if prevWs then [] else [repl]) ++ collapseRunsAux repl true rest
    else c :: collapseRunsAux repl false rest

/-- JS `s.replace(/\s+/g, repl)` for a one-character replacement. -/
def collapseRuns (repl : Char) (s : Str) : Str := collapseRunsAux repl false s

/-- Drop characters up to and including the first `'>'`. -/
def dropThroughGt (s : Str) : Str := (s.dropWhile (· ≠ '>')).drop 1

/-- Fuel-indexed scanner for JS `s.replace(/<[^>]*>/g, '')`: at a `'<'`
that is followed by some `'>'`, the leftmost match `<[^>]*>` extends to the
first `'>'`, and scanning resumes after it; a `'<'` with no later `'>'`
cannot start a match and is kept. -/
def removeTagsAux : Nat → Str → Str
  | 0, s => s
  | fuel + 1, s =>
    match s with
    | [] => []
    | c :: rest =>
      if c = '<' && rest.contains '>' then removeTagsAux fuel (dropThroughGt rest)
      else c :: removeTagsAux fuel rest

/-- JS `s.replace(/<[^>]*>/g, '')`. -/
def removeTags (s : Str) : Str := removeTagsAux s.length s

/-- JS `etag.replace(/"/g, '')`. -/
def stripQuotes (s : Str) : Str := s.filter (fun c => c ≠ '"')

/-- Decimal digit character. -/
def digitChar : Nat → Char
  | 0 => '0' | 1 => '1' | 2 => '2' | 3 => '3' | 4 => '4'
  | 5 => '5' | 6 => '6' | 7 => '7' | 8 => '8' | 9 => '9' | _ => '*'

/-- Fuel-indexed decimal rendering (fuel `≥ 1 + log10 n` suffices). -/
def natDigitsAux : Nat → Nat → Str
  | 0, _ => []
  | fuel + 1, n =>
    if n < 10 then [digitChar n]
    else natDigitsAux fuel (n / 10) ++ [digitChar (n % 10)]

/-- JS `String(n)` for a natural number. -/
def natDigits (n : Nat) : Str := natDigitsAux (n + 1) n

/-- JS `String(n).padStart(2, '0')`. -/
def pad2 (n : Nat) : Str :=
  let s := natDigits n
  if s.length < 2 then '0' :: s else s

/-! ## `utils/sanitize.ts` -/

/-- The `DANGEROUS_EXTENSIONS` denylist. -/
def dangerousExtensions : List Str :=
  ["exe".data, "bat".data, "cmd".data, "com".data, "pif".data, "scr".data,
   "vbs".data, "js".data, "jse".data, "wsf".data, "wsh".data, "msi".data,
   "msp".data, "hta".data, "cpl".data, "jar".data, "app".data, "deb".data,
   "rpm".data, "sh".data, "bash".data, "ps1".data, "html".data, "htm".data,
   "php".data, "asp".data, "aspx".data, "jsp".data]

/-- The `PATH_TRAVERSAL_PATTERNS` list, verbatim. -/
def pathTraversalPatterns : List Str :=
  ["../".data, "..\\".data, "..%2F".data, "..%2f".data, "..%5C".data,
   "..%5c".data, "%2e%2e/".data, "%2e%2e\\".data, "..%252F".data,
   "..%252f".data, "..%255C".data, "..%255c".data]

/-- The traversal scan in `sanitizeFilename`:
`lowerFilename.includes(pattern.toLowerCase())` over all patterns. -/
def containsTraversal (s : Str) : Bool :=
  pathTraversalPatterns.any (fun p => isSubstringOf (lowerStr p) (lowerStr s))

/-- `FILENAME_PATTERN = /^[a-zA-Z0-9][a-zA-Z0-9_\-\. \/]+\.[a-zA-Z0-9]+$/`.
A match is a decomposition `first ∷ body ++ '.' ∷ ext` with `first`
alphanumeric, `body` non-empty over the body class, `ext` non-empty
alphanumeric.  Since `ext` may contain no dot, the separating dot of any
match is the last dot after the first character, so testing that single
decomposition decides the regex. -/
def matchFilenamePattern : Str → Bool
  | [] => false
  | a :: rest =>
    isAsciiAlnum a &&
      match lastIndexOfChar '.' rest with
      | none => false
      | some p =>
        let body := rest.take p
        let ext := rest.drop (p + 1)
        !body.isEmpty && body.all isFilenameBodyChar &&
          !ext.isEmpty && ext.all isAsciiAlnum

/-- `sanitized.split('.').pop()?.toLowerCase() || ''`. -/
def lastDotSegmentLower (s : Str) : Str :=
  lowerStr ((splitOnChar '.' s).getLastD [])

/-- `sanitizeFilename` from `utils/sanitize.ts`.  Follows the source's
steps in order: trim, length checks, HTML-tag removal, control-character
and null-byte removal, traversal scan, backslash removal, whitespace-run
collapsing, re-trim, then the leading-dot / extension / pattern /
dangerous-extension checks. -/
def sanitizeFilename (filename : Str) : Except String Str :=
  if filename.isEmpty then .error "Filename must be a non-empty string"
  else
    let s1 := trimStr filename
    if s1.length = 0 then .error "Filename cannot be empty"
    else if s1.length > 255 then
      .error "Filename exceeds maximum length of 255 characters"
    else
      let s2 := removeTags s1
      let s3 := s2.filter (fun c => !isControlChar c)
      let s4 := s3.filter (fun c => c ≠ Char.ofNat 0)
      if containsTraversal s4 then
        .error "Filename contains path traversal patterns"
      else
        let s5 := s4.filter (fun c => c ≠ '\\')
        let s6 := collapseRuns ' ' s5
        let s7 := trimStr s6
        if s7.head? = some '.' then .error "Filename cannot start with a dot"
        else if !s7.contains '.' || s7.getLast? = some '.' then
          .error "Filename must have a valid extension"
        else if !matchFilenamePattern s7 then
          .error "Filename contains invalid characters"
        else if lastDotSegmentLower s7 ∈ dangerousExtensions then
          .error "File extension is not allowed for security reasons"
        else .ok s7

/-- The `USER_ID_PATTERN` test `/^[a-zA-Z0-9_-]+$/.test(s)`. -/
def matchUserIdChars (s : Str) : Bool := !s.isEmpty && s.all isUserIdChar

/-- The regex `^[A-Za-z0-9_-]{1,128}$` named by the spec (the userId
validity pattern applied to a whole string). -/
def matchesUserIdPattern (s : Str) : Bool :=
  !s.isEmpty && s.length ≤ 128 && s.all isUserIdChar

/-- `sanitizeUserId` from `utils/sanitize.ts`: trims, then rejects empty,
overlong (> 128) or non-`[a-zA-Z0-9_-]` results; returns the trimmed id. -/
def sanitizeUserId (userId : Str) : Except String Str :=
  if userId.isEmpty then .error "UserId must be a non-empty string"
  else
    let s := trimStr userId
    if s.length = 0 then .error "UserId cannot be empty"
    else if s.length > 128 then
      .error "UserId exceeds maximum length of 128 characters"
    else if !matchUserIdChars s then .error "UserId contains invalid characters"
    else .ok s

/-- `S3_KEY_PATTERN`:
`/^uploads\/[a-zA-Z0-9_-]+\/(visual|audio)\/\d{4}\/\d{2}\/\d{2}\/[a-zA-Z0-9-]+\/(thumbnail\/)?[a-zA-Z0-9_\-\. ]+$/`.
Every inter-slash token of the regex matches no `'/'`, so a string matches
exactly when its `'/'`-split has the shape tested here (8 fields, or 9 with
a literal `thumbnail` field). -/
def matchS3KeyPattern (s : Str) : Bool :=
  match splitOnChar '/' s with
  | [p0, u, m, y, mo, d, g, f] =>
    p0 = "uploads".data && matchUserIdChars u &&
      (m = "visual".data || m = "audio".data) &&
      (y.length = 4 && y.all isAsciiDigit) &&
      (mo.length = 2 && mo.all isAsciiDigit) &&
      (d.length = 2 && d.all isAsciiDigit) &&
      (!g.isEmpty && g.all isFileIdChar) &&
      (!f.isEmpty && f.all isKeyFilenameChar)
  | [p0, u, m, y, mo, d, g, t, f] =>
    p0 = "uploads".data && matchUserIdChars u &&
      (m = "visual".data || m = "audio".data) &&
      (y.length = 4 && y.all isAsciiDigit) &&
      (mo.length = 2 && mo.all isAsciiDigit) &&
      (d.length = 2 && d.all isAsciiDigit) &&
      (!g.isEmpty && g.all isFileIdChar) &&
      t = "thumbnail".data &&
      (!f.isEmpty && f.all isKeyFilenameChar)
  | _ => false

/-- `validateFileKey` from `utils/sanitize.ts`.  The traversal scan here
tests the *unlowered* pattern against the lowered key, exactly as the
source does (`lowerKey.includes(pattern)`). -/
def validateFileKey (fileKey : Str) : Except String Unit :=
  if fileKey.isEmpty then .error "File key must be a non-empty string"
  else
    let k := trimStr fileKey
    if k.length = 0 then .error "File key cannot be empty"
    else if k.length > 1024 then
      .error "File key exceeds maximum length of 1024 characters"
    else if isSubstringOf [Char.ofNat 0] k || isSubstringOf "%00".data k then
      .error "File key contains null bytes"
    else if pathTraversalPatterns.any (fun p => isSubstringOf p (lowerStr k)) then
      .error "File key contains path traversal patterns"
    else if !matchS3KeyPattern k then
      .error "File key does not match expected format"
    else if !("uploads/".data.isPrefixOf k) then
      .error "File key must start with uploads prefix"
    else .ok ()

/-- `extractUserIdFromKey`: the second `'/'`-field, provided the first is
literally `uploads`. -/
def extractUserIdFromKey (fileKey : Str) : Option Str :=
  match splitOnChar '/' fileKey with
  | p0 :: p1 :: _ => if p0 = "uploads".data then some p1 else none
  | _ => none

/-- `authorizeFileAccess`: owner check by comparing the extracted userId
segment with the caller's id.  An empty extracted segment is falsy in the
source (`if (!fileUserId) return false`), hence rejected. -/
def authorizeFileAccess (fileKey requestUserId : Str) : Bool :=
  match extractUserIdFromKey fileKey with
  | none => false
  | some fu => if fu.isEmpty then false else fu = requestUserId

/-- `extractFilenameFromKey` (`utils/sanitize.ts`): last `'/'`-field. -/
def extractFilenameFromKey (fileKey : Str) : Str :=
  (splitOnChar '/' fileKey).getLastD []

/-- `getFileExtension`: lowercased last `'.'`-field, or `""` if the name
contains no dot. -/
def getFileExtension (filename : Str) : Str :=
  let parts := splitOnChar '.' filename
  if parts.length > 1 then lowerStr (parts.getLastD []) else []

/-- `validateExtensionMatch`: fails when the lowercased extensions
differ. -/
def validateExtensionMatch (oldFilename newFilename : Str) : Except String Unit :=
  if getFileExtension oldFilename ≠ getFileExtension newFilename then
    .error "File extension cannot be changed"
  else .ok ()

/-- `buildRenamedKey`: replace the last `'/'`-field of the key. -/
def buildRenamedKey (originalKey newFilename : Str) : Str :=
  joinSlash ((splitOnChar '/' originalKey).dropLast ++ [newFilename])

/-! ## `services/s3.service.ts` — key derivation and category extraction -/

/-- The two media categories. -/
inductive MediaType where
  | visual
  | audio
deriving DecidableEq

/-- `getMediaTypePrefix`: `audio/*` MIME types map to `audio`, everything
else to `visual`. -/
def getMediaTypePrefix (mimeType : Str) : MediaType :=
  if "audio/".data.isPrefixOf (lowerStr (trimStr mimeType)) then .audio
  else .visual

/-- The path segment written for a category. -/
def mediaTypeStr : MediaType → Str
  | .visual => "visual".data
  | .audio => "audio".data

/-- Character class kept by the service-side filename sanitizer:
alphanumerics, dot, underscore, slash and dash. -/
def isS3KeptChar (c : Char) : Bool :=
  isAsciiAlnum c || c.toNat = 46 || c.toNat = 95 || c.toNat = 47 ||
    c.toNat = 45

/-- The private `S3Service.sanitizeFilename`: whitespace runs become `'_'`,
characters outside the kept class (`isS3KeptChar`) are dropped, and the result is
lowercased. -/
def s3SanitizeFilename (filename : Str) : Str :=
  lowerStr ((collapseRuns '_' filename).filter isS3KeptChar)

/-- `S3Service.generateS3Key`:
`{prefix}/{userId}/{mediaType}/{year}/{month}/{day}/{fileId}/{sanitizedFilename}`
with the month and day zero-padded to two digits.  The configured key
prefix (`s3Config.keyPrefix`, default `"uploads"`) and the UTC date are
passed explicitly. -/
def generateS3Key (keyPref userId fileId filename mimeType : Str)
    (year month day : Nat) : Str :=
  keyPref ++ '/' :: userId ++ '/' :: mediaTypeStr (getMediaTypePrefix mimeType) ++
    '/' :: natDigits year ++ '/' :: pad2 month ++ '/' :: pad2 day ++
    '/' :: fileId ++ '/' :: s3SanitizeFilename filename

/-- `S3Service.extractMediaTypeFromKey`: the third `'/'`-field decides the
category; anything other than a literal `audio` there — including keys
with fewer than three fields — defaults to `visual`. -/
def extractMediaTypeFromKey (s3Key : Str) : MediaType :=
  match (splitOnChar '/' s3Key)[2]? with
  | some m => if m = "audio".data then .audio else .visual
  | none => .visual

/-- `S3Service.getThumbnailKey`: insert a `thumbnail/` segment before the
filename and replace its extension by `.jpg` (a leading-dot-only filename
keeps its full name, as in the source's `lastDot > 0` test). -/
def getThumbnailKey (originalKey : Str) : Str :=
  let (directory, filename) :=
    match lastIndexOfChar '/' originalKey with
    | some i => (originalKey.take i, originalKey.drop (i + 1))
    | none => ([], originalKey)
  let nameWithoutExt :=
    match lastIndexOfChar '.' filename with
    | some j => if j > 0 then filename.take j else filename
    | none => filename
  directory ++ "/thumbnail/".data ++ nameWithoutExt ++ ".jpg".data

/-- `S3Service.requiresThumbnail`. -/
def requiresThumbnail (mediaType : MediaType) : Bool := mediaType = .visual

/-! ## Store model

The object store is abstracted as an oracle telling which commands
succeed; operations record the commands they issue, in order. -/

/-- A command issued against the object store. -/
inductive S3Op where
  | headObject (key : Str)
  | copyObject (src dst : Str)
  | deleteObject (key : Str)
deriving DecidableEq

/-- Success/existence oracle for the store: `objExists` is what
`HeadObjectCommand` reports (`checkFileExists`), `copyOk`/`deleteOk`
whether a copy/delete call succeeds. -/
structure Store where
  objExists : Str → Bool
  copyOk : Str → Str → Bool
  deleteOk : Str → Bool

/-- `S3Service.deleteSingleFile`: delete the primary object, and — only
for visual-category keys — the derived thumbnail key afterwards.  Returns
the issued commands and whether the call succeeded (a failing store call
aborts the sequence). -/
def deleteSingleFile (st : Store) (fileKey : Str) : List S3Op × Bool :=
  if st.deleteOk fileKey then
    if requiresThumbnail (extractMediaTypeFromKey fileKey) then
      let tk := getThumbnailKey fileKey
      ([.deleteObject fileKey, .deleteObject tk], st.deleteOk tk)
    else ([.deleteObject fileKey], true)
  else ([.deleteObject fileKey], false)

/-- Per-key outcome reported by the batch delete. -/
structure DeleteResult where
  fileKey : Str
  success : Bool
  error : Option String
deriving DecidableEq

/-- The result `deleteMediaFiles` reports for one key. -/
def deleteResultFor (st : Store) (fileKey : Str) : DeleteResult :=
  if (deleteSingleFile st fileKey).2 then ⟨fileKey, true, none⟩
  else ⟨fileKey, false, some "Failed to delete file from S3"⟩

/-- `S3Service.deleteMediaFiles`: every key's deletion is attempted
(`Promise.allSettled`), and the results are reported in input order. -/
def deleteMediaFiles (st : Store) (fileKeys : List Str) : List DeleteResult :=
  fileKeys.map (deleteResultFor st)

/-- The commands the batch delete issues (all keys are attempted). -/
def deleteMediaFilesOps (st : Store) (fileKeys : List Str) : List S3Op :=
  fileKeys.flatMap (fun k => (deleteSingleFile st k).1)

/-- Failure modes of `renameMediaFile` (all surfaced as `S3ServiceError`
in the source; the spec's names for the first two are `Conflict` and
`NotFound`). -/
inductive RenameError where
  | conflict
  | notFound
  | storeError
deriving DecidableEq

/-- Success payload of a rename (presigned URLs are generated locally and
are not store commands). -/
structure RenameData where
  oldKey : Str
  newKey : Str
  filename : Str
deriving DecidableEq

/-- `S3Service.renameMediaFile` as a store-command trace: existence check
on the new key (conflict), existence check on the source (not found),
metadata head, copy of the primary, for visual keys a copy of the
thumbnail, then `deleteSingleFile` on the old key, and for visual keys a
final existence probe for the new thumbnail. -/
def renameMediaFile (st : Store) (oldKey newFilename : Str) :
    List S3Op × Except RenameError RenameData :=
  let newKey := buildRenamedKey oldKey newFilename
  let mediaType := extractMediaTypeFromKey oldKey
  if st.objExists newKey then ([.headObject newKey], .error .conflict)
  else if !st.objExists oldKey then
    ([.headObject newKey, .headObject oldKey], .error .notFound)
  else
    let t3 : List S3Op :=
      [.headObject newKey, .headObject oldKey, .headObject oldKey,
       .copyObject oldKey newKey]
    if !st.copyOk oldKey newKey then (t3, .error .storeError)
    else if requiresThumbnail mediaType then
      let oldThumb := getThumbnailKey oldKey
      let newThumb := getThumbnailKey newKey
      let t4 := t3 ++ [.copyObject oldThumb newThumb]
      if !st.copyOk oldThumb newThumb then (t4, .error .storeError)
      else
        let del := deleteSingleFile st oldKey
        let t5 := t4 ++ del.1
        if !del.2 then (t5, .error .storeError)
        else (t5 ++ [.headObject newThumb], .ok ⟨oldKey, newKey, newFilename⟩)
    else
      let del := deleteSingleFile st oldKey
      let t4 := t3 ++ del.1
      if !del.2 then (t4, .error .storeError)
      else (t4, .ok ⟨oldKey, newKey, newFilename⟩)

/-! ## `services/validation.service.ts` -/

/-- One entry of the completion request's `parts` array.  Part numbers are
JS numbers restricted to integers (the claims quantify over integral
inputs); `Number.isInteger` is therefore always true in the model. -/
structure UploadPart where
  partNumber : Int
  etag : Str
deriving DecidableEq

/-- The per-part scan of `ValidationService.validateParts` (the `forEach`
with the running `partNumbers` set).  A falsy `partNumber` (`0`) or a
falsy `etag` (`""`) reports the required-fields error and skips the other
checks for that part, including the set insertion. -/
def validatePartsLoop : List UploadPart → Nat → List Int → List String
  | [], _, _ => []
  | p :: rest, i, seen =>
    if p.partNumber = 0 || p.etag.isEmpty then
      ("Part at index " ++ toString i ++ ": partNumber and etag are required") ::
        validatePartsLoop rest (i + 1) seen
    else
      (if p.partNumber < 1 || p.partNumber > 10000 then
        ["Part at index " ++ toString i ++ ": partNumber must be between 1 and 10000"]
      else []) ++
      (if seen.contains p.partNumber then
        ["Duplicate part number: " ++ toString p.partNumber]
      else []) ++
      (if (trimStr p.etag).isEmpty then
        ["Part at index " ++ toString i ++ ": etag must be a non-empty string"]
      else []) ++
      (if (stripQuotes p.etag).length < 32 then
        ["Part at index " ++ toString i ++ ": etag appears to be invalid"]
      else []) ++
      validatePartsLoop rest (i + 1) (p.partNumber :: seen)

/-- The part numbers of a parts list, in the order given. -/
def partNums (parts : List UploadPart) : List Int :=
  parts.map (·.partNumber)

/-- The JS `sort((a, b) => a.partNumber - b.partNumber)` projected to part
numbers: for a numeric comparator any sorted rearrangement yields the same
number sequence, so insertion sort is a faithful model. -/
def sortedNums (parts : List UploadPart) : List Int :=
  List.insertionSort (· ≤ ·) (partNums parts)

/-- `[1, ..., n]` as JS numbers — the `expectedPartNumbers` array. -/
def expectedNums (n : Nat) : List Int :=
  (List.range' 1 n).map (fun i => Int.ofNat i)

/-- `ValidationService.validateParts`: empty-list check, the per-part
scan, the already-sorted check, and the contiguity (no gaps) check. -/
def validateParts (parts : List UploadPart) : List String :=
  if parts.isEmpty then ["parts array cannot be empty"]
  else
    validatePartsLoop parts 0 [] ++
    (if partNums parts = sortedNums parts then []
     else ["Parts must be provided in ascending order by partNumber"]) ++
    (if sortedNums parts = expectedNums parts.length then []
     else ["Parts must be sequential (no gaps in part numbers)"])

/-- Hex digit (case-insensitive), for the UUID pattern. -/
def isHexChar (c : Char) : Bool :=
  isAsciiDigit c || (97 ≤ c.toNat && c.toNat ≤ 102) ||
    (65 ≤ c.toNat && c.toNat ≤ 70)

/-- The UUID v4 regex
`/^[0-9a-f]{8}-[0-9a-f]{4}-4[0-9a-f]{3}-[89ab][0-9a-f]{3}-[0-9a-f]{12}$/i`:
hex digits contain no `'-'`, so a match is exactly a 5-field `'-'`-split
with lengths 8/4/4/4/12, all-hex fields, a literal `'4'` opening the third
field and `[89ab]` (case-insensitively) opening the fourth. -/
def matchUuidV4 (s : Str) : Bool :=
  match splitOnChar '-' s with
  | [g1, g2, g3, g4, g5] =>
    (g1.length = 8 && g1.all isHexChar) &&
    (g2.length = 4 && g2.all isHexChar) &&
    (g3.length = 4 && g3.all isHexChar && g3.head? = some '4') &&
    (g4.length = 4 && g4.all isHexChar &&
      (g4.head? = some '8' || g4.head? = some '9' || g4.head? = some 'a' ||
       g4.head? = some 'b' || g4.head? = some 'A' || g4.head? = some 'B')) &&
    (g5.length = 12 && g5.all isHexChar)
  | _ => false

/-- The complete-upload request body. -/
structure CompleteUploadRequest where
  fileId : Str
  s3Key : Str
  uploadId : Str
  parts : List UploadPart

/-- `ValidationService.validateCompleteUploadRequest`: the required-field
stage throws first (a `ValidationError` carrying the missing-field
messages); otherwise the UUID, key-shape, uploadId-length and parts errors
are accumulated and thrown together if any exist.  (`!request.parts`
is never truthy for an array in the source, so the parts field
contributes no required-field error in the model.) -/
def validateCompleteUploadRequest (req : CompleteUploadRequest) :
    Except (List String) Unit :=
  let missing :=
    (if req.fileId.isEmpty then ["fileId is required"] else []) ++
    (if req.s3Key.isEmpty then ["s3Key is required"] else []) ++
    (if req.uploadId.isEmpty then ["uploadId is required"] else [])
  if !missing.isEmpty then .error missing
  else
    let errors :=
      (if !matchUuidV4 req.fileId then ["fileId must be a valid UUID"] else []) ++
      (if isSubstringOf "..".data req.s3Key || req.s3Key.head? = some '/' then
        ["s3Key contains invalid path patterns"] else []) ++
      (if req.uploadId.length < 10 || req.uploadId.length > 1024 then
        ["uploadId has invalid length"] else []) ++
      validateParts req.parts
    if !errors.isEmpty then .error errors else .ok ()

/-- The rename request, with the authenticated userId merged in (the
handler passes `{ ...request, userId }`). -/
structure RenameMediaRequest where
  userId : Str
  fileKey : Str
  newFilename : Str

/-- `ValidationService.validateRenameMediaRequest`: accumulates the
userId, file-key, ownership, new-filename and extension-match errors; the
request is accepted exactly when the list is empty (otherwise the service
throws a `ValidationError` carrying it). -/
def validateRenameMediaRequest (req : RenameMediaRequest) : List String :=
  (match sanitizeUserId req.userId with
   | .error m => [m]
   | .ok _ => []) ++
  (match validateFileKey req.fileKey with
   | .error m => ["File key: " ++ m]
   | .ok _ => []) ++
  (if !authorizeFileAccess req.fileKey req.userId then
    ["You can only rename your own files"]
  else []) ++
  (match sanitizeFilename req.newFilename with
   | .error m => ["New filename: " ++ m]
   | .ok _ => []) ++
  (match validateExtensionMatch (extractFilenameFromKey req.fileKey)
      req.newFilename with
   | .error m => [m]
   | .ok _ => [])

/-! ## The rename endpoint (`router.handler.ts` rename branch) -/

/-- Outcome of the rename endpoint. -/
inductive RenameHandlerResult where
  | validationFailed (errors : List String)
  | sanitizeFailed
  | renameFailed (e : RenameError)
  | renamed (d : RenameData)
deriving DecidableEq

/-- The rename endpoint: `validateRenameMediaRequest` runs first and a
`ValidationError` aborts the request before any store command; otherwise
the new filename is sanitized and `renameMediaFile` runs. -/
def renameHandler (st : Store) (req : RenameMediaRequest) :
    List S3Op × RenameHandlerResult :=
  let errs := validateRenameMediaRequest req
  if !errs.isEmpty then ([], .validationFailed errs)
  else
    match sanitizeFilename req.newFilename with
    | .error _ => ([], .sanitizeFailed)
    | .ok sf =>
      let r := renameMediaFile st req.fileKey sf
      match r.2 with
      | .ok d => (r.1, .renamed d)
      | .error e => (r.1, .renameFailed e)

/-! ## Basic lemmas about the string helpers -/

theorem splitOnChar_cons (sep c : Char) (rest : Str) :
    splitOnChar sep (c :: rest) =
      match splitOnChar sep rest with
      | [] => [[]]
      | w :: ws => if c = sep then [] :: w :: ws else (c :: w) :: ws := rfl

theorem splitOnChar_ne_nil (sep : Char) (s : Str) : splitOnChar sep s ≠ [] := by
  cases s with
  | nil => simp [splitOnChar]
  | cons c rest =>
    rw [splitOnChar_cons]
    cases h : splitOnChar sep rest with
    | nil => simp
    | cons w ws =>
      rcases eq_or_ne c sep with h' | h' <;> simp [h']

theorem splitOnChar_append_slash (a b : Str) (h : ∀ c ∈ a, c ≠ '/') :
    splitOnChar '/' (a ++ '/' :: b) = a :: splitOnChar '/' b := by
  induction a with
  | nil =>
    simp only [List.nil_append]
    rw [splitOnChar_cons]
    cases hb : splitOnChar '/' b with
    | nil => exact absurd hb (splitOnChar_ne_nil '/' b)
    | cons w ws => simp
  | cons c a ih =>
    have hc : c ≠ '/' := h c (by simp)
    have ih' := ih (fun x hx => h x (by simp [hx]))
    simp only [List.cons_append]
    rw [splitOnChar_cons, ih']
    simp [hc]

/-! ## Claim C9 — `sanitizeUserId` -/

/-- Claim C9 (counterexample): the input `"ab "` does not match
`^[A-Za-z0-9_-]{1,128}$` (it contains a space), yet `sanitizeUserId`
succeeds on it, returning the trimmed id — the success condition is about
the trimmed input, not the input. -/
theorem sanitizeUserId_accepts_nonmatching_input :
    matchesUserIdPattern "ab ".data = false ∧
      sanitizeUserId "ab ".data = .ok "ab".data := by
  constructor
  · decide
  · rfl

/-- Claim C9 (amended): `sanitizeUserId` succeeds exactly when the
whitespace-trimmed input matches `^[A-Za-z0-9_-]{1,128}$`. -/
theorem sanitizeUserId_ok_iff (s : Str) :
    (sanitizeUserId s).isOk = true ↔ matchesUserIdPattern (trimStr s) = true := by
  by_cases hs : s.isEmpty
  · have : s = [] := by simpa using hs
    subst this
    simp [sanitizeUserId, matchesUserIdPattern, trimStr, Except.isOk, Except.toBool]
  · simp only [sanitizeUserId, hs, Bool.false_eq_true, if_false]
    split_ifs with h1 h2 h3 <;>
      simp_all [matchesUserIdPattern, matchUserIdChars, Except.isOk, Except.toBool,
        List.isEmpty_iff_length_eq_zero]

/-! ## Claim C3 — key derivation vs `authorizeFileAccess` -/

theorem userIdChar_ne_slash {c : Char} (h : isUserIdChar c = true) : c ≠ '/' := by
  rintro rfl
  exact absurd h (by decide)

theorem uploads_no_slash : ∀ c ∈ "uploads".data, c ≠ '/' := by decide

/-- The `'/'`-split of a generated key starts with the prefix and the
userId, provided the prefix and the userId contain no slash. -/
theorem splitOnChar_generateS3Key (keyPref userId fileId filename mimeType : Str)
    (year month day : Nat) (hp : ∀ c ∈ keyPref, c ≠ '/')
    (hu : ∀ c ∈ userId, c ≠ '/') :
    ∃ tail, splitOnChar '/'
        (generateS3Key keyPref userId fileId filename mimeType year month day) =
      keyPref :: userId :: tail := by
  unfold generateS3Key
  rw [show keyPref ++ '/' :: userId ++
        '/' :: mediaTypeStr (getMediaTypePrefix mimeType) ++
        '/' :: natDigits year ++ '/' :: pad2 month ++ '/' :: pad2 day ++
        '/' :: fileId ++ '/' :: s3SanitizeFilename filename =
      keyPref ++ '/' :: (userId ++
        '/' :: (mediaTypeStr (getMediaTypePrefix mimeType) ++
        '/' :: (natDigits year ++ '/' :: (pad2 month ++ '/' :: (pad2 day ++
        '/' :: (fileId ++ '/' :: s3SanitizeFilename filename)))))) by
    simp [List.append_assoc]]
  rw [splitOnChar_append_slash _ _ hp, splitOnChar_append_slash _ _ hu]
  exact ⟨_, rfl⟩

/-- Claim C3 (counterexample): with the configured key prefix set to
`"media"` instead of the default `"uploads"`, the owner is denied access
to a key derived for them — `extractUserIdFromKey` insists on a literal
`uploads` first segment, so the claim fails for that configured prefix. -/
theorem authorize_fails_for_nondefault_keyPrefix :
    authorizeFileAccess
      (generateS3Key "media".data "alice".data "g1".data "a.mp4".data
        "video/mp4".data 2025 1 2) "alice".data = false := by
  decide

/-- Claim C3 (amended): with the default key prefix `"uploads"`, every
key derived for a valid userId `u` authorizes `u` and no other user. -/
theorem authorize_generated_key (userId fileId filename mimeType : Str)
    (year month day : Nat) (h : matchesUserIdPattern userId = true) :
    authorizeFileAccess
        (generateS3Key "uploads".data userId fileId filename mimeType year month day)
        userId = true ∧
      ∀ u2, u2 ≠ userId →
        authorizeFileAccess
          (generateS3Key "uploads".data userId fileId filename mimeType year month day)
          u2 = false := by
  have hne : ¬userId.isEmpty := by
    simp only [matchesUserIdPattern, Bool.and_eq_true] at h
    simpa using h.1.1
  have hchars : ∀ c ∈ userId, c ≠ '/' := by
    intro c hc
    simp only [matchesUserIdPattern, Bool.and_eq_true, List.all_eq_true] at h
    exact userIdChar_ne_slash (h.2 c hc)
  obtain ⟨tail, htail⟩ := splitOnChar_generateS3Key "uploads".data userId fileId
    filename mimeType year month day uploads_no_slash hchars
  have hextract : extractUserIdFromKey
      (generateS3Key "uploads".data userId fileId filename mimeType year month day) =
      some userId := by
    unfold extractUserIdFromKey
    rw [htail]
    simp
  constructor
  · simp [authorizeFileAccess, hextract, hne]
  · intro u2 h2
    have : userId ≠ u2 := fun h' => h2 h'.symm
    simp [authorizeFileAccess, hextract, hne, this]

/-- Witness for the amended C3 at a concrete valid userId. -/
theorem authorize_generated_key_witness :
    matchesUserIdPattern "alice".data = true ∧
      (authorizeFileAccess
          (generateS3Key "uploads".data "alice".data "g1".data "a.mp4".data
            "video/mp4".data 2025 1 2) "alice".data = true ∧
        authorizeFileAccess
          (generateS3Key "uploads".data "alice".data "g1".data "a.mp4".data
            "video/mp4".data 2025 1 2) "bob".data = false) :=
  ⟨by decide,
    (authorize_generated_key "alice".data "g1".data "a.mp4".data "video/mp4".data
        2025 1 2 (by decide)).1,
    (authorize_generated_key "alice".data "g1".data "a.mp4".data "video/mp4".data
        2025 1 2 (by decide)).2 "bob".data (by decide)⟩

/-! ## Claims C4 and C10 — single-key delete and category extraction -/

/-- A concrete store in which every call succeeds and every object
exists. -/
def stAll : Store := ⟨fun _ => true, fun _ _ => true, fun _ => true⟩

/-- Claim C4: deleting a key whose category segment is `visual` issues the
primary delete and then the derived thumbnail delete; deleting a key whose
category segment is `audio` issues no thumbnail delete. -/
theorem deleteSingleFile_thumbnail_by_category (st : Store) (key : Str) :
    ((splitOnChar '/' key)[2]? = some "visual".data →
      st.deleteOk key = true →
      (deleteSingleFile st key).1 =
        [.deleteObject key, .deleteObject (getThumbnailKey key)]) ∧
    ((splitOnChar '/' key)[2]? = some "audio".data →
      (deleteSingleFile st key).1 = [.deleteObject key]) := by
  constructor
  · intro hseg hok
    have hext : extractMediaTypeFromKey key = .visual := by
      simp [extractMediaTypeFromKey, hseg]
    simp [deleteSingleFile, hok, hext, requiresThumbnail]
  · intro hseg
    have hext : extractMediaTypeFromKey key = .audio := by
      simp [extractMediaTypeFromKey, hseg]
    by_cases hok : st.deleteOk key <;>
      simp [deleteSingleFile, hok, hext, requiresThumbnail]

/-- Witness for C4 at one visual and one audio key. -/
theorem deleteSingleFile_thumbnail_by_category_witness :
    ((splitOnChar '/' "uploads/u1/visual/2025/01/02/g1/a.mp4".data)[2]? =
        some "visual".data ∧
      stAll.deleteOk "uploads/u1/visual/2025/01/02/g1/a.mp4".data = true ∧
      (deleteSingleFile stAll "uploads/u1/visual/2025/01/02/g1/a.mp4".data).1 =
        [.deleteObject "uploads/u1/visual/2025/01/02/g1/a.mp4".data,
         .deleteObject (getThumbnailKey "uploads/u1/visual/2025/01/02/g1/a.mp4".data)]) ∧
    ((splitOnChar '/' "uploads/u1/audio/2025/01/02/g2/b.mp3".data)[2]? =
        some "audio".data ∧
      (deleteSingleFile stAll "uploads/u1/audio/2025/01/02/g2/b.mp3".data).1 =
        [.deleteObject "uploads/u1/audio/2025/01/02/g2/b.mp3".data]) :=
  ⟨⟨by decide, rfl,
      (deleteSingleFile_thumbnail_by_category stAll
        "uploads/u1/visual/2025/01/02/g1/a.mp4".data).1 (by decide) rfl⟩,
    ⟨by decide,
      (deleteSingleFile_thumbnail_by_category stAll
        "uploads/u1/audio/2025/01/02/g2/b.mp3".data).2 (by decide)⟩⟩

/-- Claim C10: any key whose third `'/'`-field is not the literal `audio`
— including keys with fewer than three fields — is categorized as
`visual`, and its delete also issues the derived thumbnail delete. -/
theorem extract_defaults_to_visual (st : Store) (key : Str)
    (h : (splitOnChar '/' key)[2]? ≠ some "audio".data) :
    extractMediaTypeFromKey key = .visual ∧
      (st.deleteOk key = true →
        (deleteSingleFile st key).1 =
          [.deleteObject key, .deleteObject (getThumbnailKey key)]) := by
  have hext : extractMediaTypeFromKey key = .visual := by
    unfold extractMediaTypeFromKey
    cases hseg : (splitOnChar '/' key)[2]? with
    | none => rfl
    | some m =>
      have : m ≠ "audio".data := by
        intro hm
        exact h (by rw [hseg, hm])
      simp [this]
  refine ⟨hext, fun hok => ?_⟩
  simp [deleteSingleFile, hok, hext, requiresThumbnail]

/-- Witness for C10 at a malformed two-field key. -/
theorem extract_defaults_to_visual_witness :
    (splitOnChar '/' "oops/x.mp4".data)[2]? ≠ some "audio".data ∧
      (extractMediaTypeFromKey "oops/x.mp4".data = .visual ∧
        (deleteSingleFile stAll "oops/x.mp4".data).1 =
          [.deleteObject "oops/x.mp4".data,
           .deleteObject (getThumbnailKey "oops/x.mp4".data)]) :=
  ⟨by decide,
    (extract_defaults_to_visual stAll "oops/x.mp4".data (by decide)).1,
    (extract_defaults_to_visual stAll "oops/x.mp4".data (by decide)).2 rfl⟩

/-! ## Claim C6 — batch delete isolation -/

/-- Claim C6: the batch delete reports exactly one result per input key,
at the same index; each result carries the key, a success mark or a
failure mark with an error message; and the result at an index is the
one-key outcome of that key alone — every key's deletion is attempted and
its commands issued regardless of the other keys' failures. -/
theorem deleteMediaFiles_per_key (st : Store) (fileKeys : List Str) :
    (deleteMediaFiles st fileKeys).length = fileKeys.length ∧
    (∀ i, i < fileKeys.length →
      (deleteMediaFiles st fileKeys)[i]? = some (deleteResultFor st (fileKeys.getD i [])) ∧
      (deleteResultFor st (fileKeys.getD i [])).fileKey = fileKeys.getD i [] ∧
      ((deleteResultFor st (fileKeys.getD i [])).success = true ∧
          (deleteResultFor st (fileKeys.getD i [])).error = none ∨
        (deleteResultFor st (fileKeys.getD i [])).success = false ∧
          (deleteResultFor st (fileKeys.getD i [])).error =
            some "Failed to delete file from S3")) ∧
    ∀ k ∈ fileKeys, S3Op.deleteObject k ∈ deleteMediaFilesOps st fileKeys := by
  refine ⟨by simp [deleteMediaFiles], fun i hi => ⟨?_, ?_, ?_⟩, fun k hk => ?_⟩
  · simp only [deleteMediaFiles, List.getElem?_map]
    rw [List.getElem?_eq_getElem hi, List.getD_eq_getElem _ _ hi]
    rfl
  · unfold deleteResultFor
    split <;> rfl
  · unfold deleteResultFor
    split
    · exact Or.inl ⟨rfl, rfl⟩
    · exact Or.inr ⟨rfl, rfl⟩
  · refine List.mem_flatMap.mpr ⟨k, hk, ?_⟩
    unfold deleteSingleFile
    split_ifs <;> simp

/-- A visual-category key used by concrete instances. -/
def kVis : Str := "uploads/u1/visual/2025/01/02/g1/a.mp4".data

/-- An audio-category key used by concrete instances. -/
def kAud : Str := "uploads/u1/audio/2025/01/02/g2/b.mp3".data

/-- A store in which only the delete of `kVis` fails. -/
def stFailVis : Store :=
  ⟨fun _ => true, fun _ _ => true, fun k => decide ¬(k = kVis)⟩

/-- Witness for C6 on a two-key batch whose first deletion fails: both
indices are reported, and the second key's deletion is still attempted. -/
theorem deleteMediaFiles_per_key_witness :
    (0 < ([kVis, kAud] : List Str).length ∧ 1 < ([kVis, kAud] : List Str).length) ∧
    (deleteMediaFiles stFailVis [kVis, kAud]).length = 2 ∧
    (deleteMediaFiles stFailVis [kVis, kAud])[0]? =
      some (deleteResultFor stFailVis kVis) ∧
    (deleteMediaFiles stFailVis [kVis, kAud])[1]? =
      some (deleteResultFor stFailVis kAud) ∧
    S3Op.deleteObject kAud ∈ deleteMediaFilesOps stFailVis [kVis, kAud] :=
  ⟨⟨by decide, by decide⟩,
    (deleteMediaFiles_per_key stFailVis [kVis, kAud]).1,
    ((deleteMediaFiles_per_key stFailVis [kVis, kAud]).2.1 0 (by decide)).1,
    ((deleteMediaFiles_per_key stFailVis [kVis, kAud]).2.1 1 (by decide)).1,
    (deleteMediaFiles_per_key stFailVis [kVis, kAud]).2.2 kAud (by simp)⟩

/-! ## Claim C7 — rename preflight checks -/

/-- A store command that mutates state (copy or delete). -/
def isMutatingOp : S3Op → Bool
  | .headObject _ => false
  | .copyObject _ _ => true
  | .deleteObject _ => true

/-- Claim C7: rename fails with `Conflict` when the target key exists, and
with `NotFound` when the target is free but the source is missing — the
traces of those failures are exactly the two existence checks, in that
order; and whenever a copy or delete is issued at all, the trace starts
with those same two checks. -/
theorem renameMediaFile_preflight (st : Store) (oldKey newFilename : Str) :
    (st.objExists (buildRenamedKey oldKey newFilename) = true →
      renameMediaFile st oldKey newFilename =
        ([.headObject (buildRenamedKey oldKey newFilename)], .error .conflict)) ∧
    (st.objExists (buildRenamedKey oldKey newFilename) = false →
      st.objExists oldKey = false →
      renameMediaFile st oldKey newFilename =
        ([.headObject (buildRenamedKey oldKey newFilename), .headObject oldKey],
          .error .notFound)) ∧
    ((∃ op ∈ (renameMediaFile st oldKey newFilename).1, isMutatingOp op = true) →
      (renameMediaFile st oldKey newFilename).1.take 2 =
        [.headObject (buildRenamedKey oldKey newFilename), .headObject oldKey]) := by
  refine ⟨fun h1 => by simp [renameMediaFile, h1], fun h1 h2 => by
    simp [renameMediaFile, h1, h2], fun hmut => ?_⟩
  by_cases h1 : st.objExists (buildRenamedKey oldKey newFilename) = true
  · exfalso
    simp [renameMediaFile, h1, isMutatingOp] at hmut
  · rw [Bool.not_eq_true] at h1
    by_cases h2 : st.objExists oldKey = true
    · simp only [renameMediaFile, h1, h2]
      split_ifs <;> simp_all
    · rw [Bool.not_eq_true] at h2
      exfalso
      simp [renameMediaFile, h1, h2, isMutatingOp] at hmut

/-- A store in which no object exists. -/
def stNone : Store := ⟨fun _ => false, fun _ _ => true, fun _ => true⟩

/-- A store in which exactly `kVis` exists and every mutation succeeds. -/
def stOldOnly : Store := ⟨fun k => decide (k = kVis), fun _ _ => true, fun _ => true⟩

/-- Witness for C7: a conflicting rename, a missing-source rename, and a
rename that reaches its copies. -/
theorem renameMediaFile_preflight_witness :
    (stAll.objExists (buildRenamedKey kVis "b.mp4".data) = true ∧
      renameMediaFile stAll kVis "b.mp4".data =
        ([.headObject (buildRenamedKey kVis "b.mp4".data)], .error .conflict)) ∧
    (stNone.objExists (buildRenamedKey kVis "b.mp4".data) = false ∧
      stNone.objExists kVis = false ∧
      renameMediaFile stNone kVis "b.mp4".data =
        ([.headObject (buildRenamedKey kVis "b.mp4".data), .headObject kVis],
          .error .notFound)) ∧
    ((∃ op ∈ (renameMediaFile stOldOnly kVis "b.mp4".data).1,
        isMutatingOp op = true) ∧
      (renameMediaFile stOldOnly kVis "b.mp4".data).1.take 2 =
        [.headObject (buildRenamedKey kVis "b.mp4".data), .headObject kVis]) :=
  ⟨⟨rfl, (renameMediaFile_preflight stAll kVis "b.mp4".data).1 rfl⟩,
    ⟨rfl, rfl, (renameMediaFile_preflight stNone kVis "b.mp4".data).2.1 rfl rfl⟩,
    ⟨by decide, (renameMediaFile_preflight stOldOnly kVis "b.mp4".data).2.2
      (by decide)⟩⟩

/-! ## Claim C1 — rename deletes only after successful copies -/

theorem deleteObject_mem_deleteSingleFile (st : Store) (k : Str) :
    S3Op.deleteObject k ∈ (deleteSingleFile st k).1 := by
  unfold deleteSingleFile
  split_ifs <;> simp

/-- Claim C1: the old primary is deleted only after the primary copy (and,
for visual keys, the thumbnail copy) succeeded — any trace containing the
delete is the preflight-plus-primary-copy prefix followed by commands
among which the delete occurs; and if any copy step fails, the rename
returns an error and its trace contains no delete at all, so the object at
the old key was never removed. -/
theorem renameMediaFile_copy_before_delete (st : Store) (oldKey newFilename : Str) :
    (S3Op.deleteObject oldKey ∈ (renameMediaFile st oldKey newFilename).1 →
      st.copyOk oldKey (buildRenamedKey oldKey newFilename) = true ∧
      (requiresThumbnail (extractMediaTypeFromKey oldKey) = true →
        st.copyOk (getThumbnailKey oldKey)
          (getThumbnailKey (buildRenamedKey oldKey newFilename)) = true) ∧
      ∃ post, (renameMediaFile st oldKey newFilename).1 =
        [.headObject (buildRenamedKey oldKey newFilename), .headObject oldKey,
         .headObject oldKey,
         .copyObject oldKey (buildRenamedKey oldKey newFilename)] ++ post ∧
        S3Op.deleteObject oldKey ∈ post) ∧
    ((st.copyOk oldKey (buildRenamedKey oldKey newFilename) = false ∨
        (requiresThumbnail (extractMediaTypeFromKey oldKey) = true ∧
          st.copyOk (getThumbnailKey oldKey)
            (getThumbnailKey (buildRenamedKey oldKey newFilename)) = false)) →
      (∃ e, (renameMediaFile st oldKey newFilename).2 = .error e) ∧
      ∀ k, S3Op.deleteObject k ∉ (renameMediaFile st oldKey newFilename).1) := by
  by_cases h1 : st.objExists (buildRenamedKey oldKey newFilename) = true
  · constructor
    · intro hmem
      exfalso
      simp [renameMediaFile, h1] at hmem
    · intro _
      constructor
      · exact ⟨.conflict, by simp [renameMediaFile, h1]⟩
      · intro k
        simp [renameMediaFile, h1]
  · rw [Bool.not_eq_true] at h1
    by_cases h2 : st.objExists oldKey = true
    · by_cases h3 : st.copyOk oldKey (buildRenamedKey oldKey newFilename) = true
      · by_cases h4 : requiresThumbnail (extractMediaTypeFromKey oldKey) = true
        · by_cases h5 : st.copyOk (getThumbnailKey oldKey)
              (getThumbnailKey (buildRenamedKey oldKey newFilename)) = true
          · constructor
            · intro _
              refine ⟨h3, fun _ => h5, ?_⟩
              by_cases h6 : (deleteSingleFile st oldKey).2 = true
              · refine ⟨.copyObject (getThumbnailKey oldKey)
                    (getThumbnailKey (buildRenamedKey oldKey newFilename)) ::
                    (deleteSingleFile st oldKey).1 ++
                    [.headObject (getThumbnailKey (buildRenamedKey oldKey newFilename))],
                  ?_, ?_⟩
                · simp [renameMediaFile, h1, h2, h3, h4, h5, h6]
                · simp [deleteObject_mem_deleteSingleFile]
              · rw [Bool.not_eq_true] at h6
                refine ⟨.copyObject (getThumbnailKey oldKey)
                    (getThumbnailKey (buildRenamedKey oldKey newFilename)) ::
                    (deleteSingleFile st oldKey).1, ?_, ?_⟩
                · simp [renameMediaFile, h1, h2, h3, h4, h5, h6]
                · simp [deleteObject_mem_deleteSingleFile]
            · intro hcopy
              rcases hcopy with h3f | ⟨_, h5f⟩
              · rw [h3] at h3f; cases h3f
              · rw [h5] at h5f; cases h5f
          · rw [Bool.not_eq_true] at h5
            constructor
            · intro hmem
              exfalso
              simp [renameMediaFile, h1, h2, h3, h4, h5] at hmem
            · intro _
              constructor
              · exact ⟨.storeError, by simp [renameMediaFile, h1, h2, h3, h4, h5]⟩
              · intro k
                simp [renameMediaFile, h1, h2, h3, h4, h5]
        · rw [Bool.not_eq_true] at h4
          constructor
          · intro _
            refine ⟨h3, ?_, ?_⟩
            · intro h4t
              rw [h4] at h4t
              cases h4t
            by_cases h6 : (deleteSingleFile st oldKey).2 = true
            · refine ⟨(deleteSingleFile st oldKey).1, ?_, ?_⟩
              · simp [renameMediaFile, h1, h2, h3, h4, h6]
              · simp [deleteObject_mem_deleteSingleFile]
            · rw [Bool.not_eq_true] at h6
              refine ⟨(deleteSingleFile st oldKey).1, ?_, ?_⟩
              · simp [renameMediaFile, h1, h2, h3, h4, h6]
              · simp [deleteObject_mem_deleteSingleFile]
          · intro hcopy
            rcases hcopy with h3f | ⟨h4t, _⟩
            · rw [h3] at h3f; cases h3f
            · rw [h4] at h4t; cases h4t
      · rw [Bool.not_eq_true] at h3
        constructor
        · intro hmem
          exfalso
          simp [renameMediaFile, h1, h2, h3] at hmem
        · intro _
          constructor
          · exact ⟨.storeError, by simp [renameMediaFile, h1, h2, h3]⟩
          · intro k
            simp [renameMediaFile, h1, h2, h3]
    · rw [Bool.not_eq_true] at h2
      constructor
      · intro hmem
        exfalso
        simp [renameMediaFile, h1, h2] at hmem
      · intro _
        constructor
        · exact ⟨.notFound, by simp [renameMediaFile, h1, h2]⟩
        · intro k
          simp [renameMediaFile, h1, h2]

/-- A store in which only `kVis` exists and every copy fails. -/
def stNoCopy : Store :=
  ⟨fun k => decide (k = kVis), fun _ _ => false, fun _ => true⟩

/-- Witness for C1: a rename whose trace contains the delete (after the
copies), and a rename whose primary copy fails and whose trace contains no
delete. -/
theorem renameMediaFile_copy_before_delete_witness :
    (S3Op.deleteObject kVis ∈ (renameMediaFile stOldOnly kVis "b.mp4".data).1 ∧
      stOldOnly.copyOk kVis (buildRenamedKey kVis "b.mp4".data) = true ∧
      ∃ post, (renameMediaFile stOldOnly kVis "b.mp4".data).1 =
        [.headObject (buildRenamedKey kVis "b.mp4".data), .headObject kVis,
         .headObject kVis,
         .copyObject kVis (buildRenamedKey kVis "b.mp4".data)] ++ post ∧
        S3Op.deleteObject kVis ∈ post) ∧
    (stNoCopy.copyOk kVis (buildRenamedKey kVis "b.mp4".data) = false ∧
      (∃ e, (renameMediaFile stNoCopy kVis "b.mp4".data).2 = .error e) ∧
      S3Op.deleteObject kVis ∉ (renameMediaFile stNoCopy kVis "b.mp4".data).1) :=
  ⟨⟨by decide,
      ((renameMediaFile_copy_before_delete stOldOnly kVis "b.mp4".data).1
        (by decide)).1,
      ((renameMediaFile_copy_before_delete stOldOnly kVis "b.mp4".data).1
        (by decide)).2.2⟩,
    rfl,
    ((renameMediaFile_copy_before_delete stNoCopy kVis "b.mp4".data).2
      (Or.inl rfl)).1,
    ((renameMediaFile_copy_before_delete stNoCopy kVis "b.mp4".data).2
      (Or.inl rfl)).2 kVis⟩

/-! ## Claim C5 — rename preserves the extension -/

/-- Claim C5: a rename request accepted by validation has
`extension(new) == extension(old)` (lowercased), and a request whose new
filename changes the extension is rejected by validation — the endpoint
returns the `ValidationError` and issues no store command. -/
theorem validateRename_extension_invariant (st : Store) (req : RenameMediaRequest) :
    (validateRenameMediaRequest req = [] →
      getFileExtension (extractFilenameFromKey req.fileKey) =
        getFileExtension req.newFilename) ∧
    (getFileExtension (extractFilenameFromKey req.fileKey) ≠
        getFileExtension req.newFilename →
      validateRenameMediaRequest req ≠ [] ∧
      renameHandler st req = ([], .validationFailed (validateRenameMediaRequest req))) := by
  constructor
  · intro h
    by_contra hne
    simp [validateRenameMediaRequest, validateExtensionMatch, hne] at h
  · intro hne
    have hne' : validateRenameMediaRequest req ≠ [] := by
      simp [validateRenameMediaRequest, validateExtensionMatch, hne]
    refine ⟨hne', ?_⟩
    simp only [renameHandler]
    rw [if_pos (by simpa [List.isEmpty_iff] using hne')]

/-- An accepted rename request. -/
def reqOk : RenameMediaRequest :=
  ⟨"alice".data, "uploads/alice/visual/2025/01/02/g1/video.mp4".data,
    "holiday.mp4".data⟩

/-- A rename request that changes the extension. -/
def reqBadExt : RenameMediaRequest :=
  ⟨"alice".data, "uploads/alice/visual/2025/01/02/g1/video.mp4".data,
    "holiday.mov".data⟩

/-- Witness for C5: the accepted request preserves the extension, and the
extension-changing request is rejected with no store command issued. -/
theorem validateRename_extension_invariant_witness :
    (validateRenameMediaRequest reqOk = [] ∧
      getFileExtension (extractFilenameFromKey reqOk.fileKey) =
        getFileExtension reqOk.newFilename) ∧
    (getFileExtension (extractFilenameFromKey reqBadExt.fileKey) ≠
        getFileExtension reqBadExt.newFilename ∧
      validateRenameMediaRequest reqBadExt ≠ [] ∧
      renameHandler stAll reqBadExt =
        ([], .validationFailed (validateRenameMediaRequest reqBadExt))) :=
  ⟨⟨by decide, (validateRename_extension_invariant stAll reqOk).1 (by decide)⟩,
    by decide,
    ((validateRename_extension_invariant stAll reqBadExt).2 (by decide)).1,
    ((validateRename_extension_invariant stAll reqBadExt).2 (by decide)).2⟩

/-! ## Claim C2 — completion parts validation -/

/-- The claim's integrity-tag hypothesis: non-empty (also after trimming)
and at least 32 characters after stripping quote characters. -/
def etagGood (p : UploadPart) : Prop :=
  (trimStr p.etag).isEmpty = false ∧ 32 ≤ (stripQuotes p.etag).length

instance (p : UploadPart) : Decidable (etagGood p) := by
  unfold etagGood
  infer_instance

theorem etagGood_nonempty {p : UploadPart} (h : etagGood p) :
    p.etag.isEmpty = false := by
  rcases h with ⟨h1, _⟩
  cases he : p.etag with
  | nil => rw [he] at h1; simp [trimStr] at h1
  | cons c rest => rfl

theorem validatePartsLoop_eq_nil_iff (l : List UploadPart)
    (H : ∀ p ∈ l, etagGood p) :
    ∀ i seen, (validatePartsLoop l i seen = [] ↔
      ((∀ p ∈ l, 1 ≤ p.partNumber ∧ p.partNumber ≤ 10000) ∧
        (partNums l).Nodup ∧ ∀ p ∈ l, p.partNumber ∉ seen)) := by
  induction l with
  | nil => intro i seen; simp [validatePartsLoop, partNums]
  | cons p rest ih =>
    intro i seen
    have hp := H p (by simp)
    have hrest : ∀ q ∈ rest, etagGood q := fun q hq => H q (by simp [hq])
    have hne := etagGood_nonempty hp
    by_cases h0 : p.partNumber = 0
    · constructor
      · intro h
        exfalso
        simp [validatePartsLoop, h0] at h
      · rintro ⟨hrange, -, -⟩
        have := (hrange p (by simp)).1
        omega
    · have hcond : (p.partNumber = 0 || p.etag.isEmpty) = false := by
        simp [h0, hne]
      have htrim : ¬(trimStr p.etag).isEmpty = true := by simp [hp.1]
      have hquote : ¬(stripQuotes p.etag).length < 32 := by
        have := hp.2; omega
      rw [show validatePartsLoop (p :: rest) i seen =
        (if p.partNumber < 1 || p.partNumber > 10000 then
          ["Part at index " ++ toString i ++ ": partNumber must be between 1 and 10000"]
        else []) ++
        ((if seen.contains p.partNumber then
          ["Duplicate part number: " ++ toString p.partNumber]
        else []) ++
        ((if (trimStr p.etag).isEmpty then
          ["Part at index " ++ toString i ++ ": etag must be a non-empty string"]
        else []) ++
        ((if (stripQuotes p.etag).length < 32 then
          ["Part at index " ++ toString i ++ ": etag appears to be invalid"]
        else []) ++
        validatePartsLoop rest (i + 1) (p.partNumber :: seen)) )) from by
          simp [validatePartsLoop, hcond]]
      rw [if_neg htrim, if_neg hquote]
      simp only [List.nil_append, List.append_eq_nil]
      rw [ih hrest (i + 1) (p.partNumber :: seen)]
      constructor
      · rintro ⟨hA, hB, hR, hN, hS⟩
        have hA' : 1 ≤ p.partNumber ∧ p.partNumber ≤ 10000 := by
          by_contra hor
          rw [if_pos (by simp; omega)] at hA
          cases hA
        have hB' : p.partNumber ∉ seen := by
          intro hmem
          rw [if_pos (by simpa using hmem)] at hB
          cases hB
        refine ⟨?_, ?_, ?_⟩
        · intro q hq
          rcases List.mem_cons.mp hq with rfl | hq'
          · exact hA'
          · exact hR q hq'
        · simp only [partNums, List.map_cons, List.nodup_cons]
          refine ⟨?_, hN⟩
          intro hmem
          rcases List.mem_map.mp hmem with ⟨q, hq, hqe⟩
          exact (hS q hq) (by simp [hqe])
        · intro q hq
          rcases List.mem_cons.mp hq with rfl | hq'
          · exact hB'
          · intro hmem
            exact (hS q hq') (by simp [hmem])
      · rintro ⟨hR, hN, hS⟩
        have hRp := hR p (by simp)
        simp only [partNums, List.map_cons, List.nodup_cons] at hN
        refine ⟨?_, ?_, ?_, ?_, ?_⟩
        · rw [if_neg (by simp; omega)]
        · rw [if_neg (by simpa using hS p (by simp))]
        · exact fun q hq => hR q (by simp [hq])
        · exact hN.2
        · intro q hq
          simp only [List.mem_cons, not_or]
          refine ⟨?_, fun hm => hS q (by simp [hq]) hm⟩
          intro he
          exact hN.1 (List.mem_map.mpr ⟨q, hq, he⟩)

theorem ordered_iff_sorted (parts : List UploadPart) :
    partNums parts = sortedNums parts ↔ (partNums parts).Sorted (· ≤ ·) := by
  constructor
  · intro h
    rw [h]
    exact List.sorted_insertionSort _ _
  · intro h
    exact (List.Sorted.insertionSort_eq h).symm

theorem mem_expectedNums (n : Nat) (k : Int) :
    k ∈ expectedNums n ↔ 1 ≤ k ∧ k ≤ (n : Int) := by
  simp only [expectedNums, List.mem_map, List.mem_range'_1, Int.ofNat_eq_coe]
  constructor
  · rintro ⟨m, hm, rfl⟩
    omega
  · intro hk
    exact ⟨k.toNat, by omega, by omega⟩

theorem sorted_expectedNums (n : Nat) : (expectedNums n).Sorted (· ≤ ·) := by
  unfold expectedNums
  exact List.Pairwise.map _
    (fun a b hab => by
      simp only [Int.ofNat_eq_coe]
      exact_mod_cast Nat.le_of_lt hab)
    (List.pairwise_lt_range' 1 n)

theorem nodup_expectedNums (n : Nat) : (expectedNums n).Nodup :=
  List.Nodup.map (fun a b h => by
    simp only [Int.ofNat_eq_coe] at h
    exact_mod_cast h) (List.nodup_range' 1 n)

theorem gaps_iff (parts : List UploadPart) (hN : (partNums parts).Nodup) :
    sortedNums parts = expectedNums parts.length ↔
      ∀ k : Int, k ∈ partNums parts ↔ 1 ≤ k ∧ k ≤ (parts.length : Int) := by
  have hmem : ∀ k : Int, k ∈ sortedNums parts ↔ k ∈ partNums parts := by
    intro k
    unfold sortedNums
    exact List.mem_insertionSort _
  constructor
  · intro h k
    rw [← hmem k, h, mem_expectedNums]
  · intro h
    have hsub1 : partNums parts ⊆ expectedNums parts.length := fun k hk =>
      (mem_expectedNums _ k).mpr ((h k).mp hk)
    have hsub2 : expectedNums parts.length ⊆ partNums parts := fun k hk =>
      (h k).mpr ((mem_expectedNums _ k).mp hk)
    have hperm : List.Perm (partNums parts) (expectedNums parts.length) :=
      (hN.subperm hsub1).antisymm ((nodup_expectedNums _).subperm hsub2)
    exact List.eq_of_perm_of_sorted
      ((List.perm_insertionSort _ _).trans hperm)
      (List.sorted_insertionSort _ _) (sorted_expectedNums _)

/-- Claim C2: for parts whose integrity tags satisfy the claim's tag
hypothesis, the parts validation succeeds exactly when the list is
non-empty, every part number is in `[1, 10000]`, there are no duplicates,
the list is already sorted ascending as given, and the part numbers are
exactly `{1, ..., n}`; and any parts list failing validation makes the
completion request fail with a `ValidationError`. -/
theorem validateParts_characterization (parts : List UploadPart)
    (H : ∀ p ∈ parts, etagGood p) :
    (validateParts parts = [] ↔
      (parts ≠ [] ∧
        (∀ p ∈ parts, 1 ≤ p.partNumber ∧ p.partNumber ≤ 10000) ∧
        (partNums parts).Nodup ∧
        (partNums parts).Sorted (· ≤ ·) ∧
        ∀ k : Int, k ∈ partNums parts ↔ 1 ≤ k ∧ k ≤ (parts.length : Int))) ∧
    (validateParts parts ≠ [] →
      ∀ req : CompleteUploadRequest, req.parts = parts →
        ∃ errs, validateCompleteUploadRequest req = .error errs) := by
  constructor
  · by_cases hnil : parts = []
    · subst hnil
      simp [validateParts]
    · have hnil' : ¬parts.isEmpty = true := by simp [hnil]
      have hloop := validatePartsLoop_eq_nil_iff parts H 0 []
      constructor
      · intro h
        rw [validateParts, if_neg hnil'] at h
        have h3 := List.append_eq_nil.mp h
        have h12 := List.append_eq_nil.mp h3.1
        have hL := hloop.mp h12.1
        have hord : partNums parts = sortedNums parts := by
          by_contra hc
          rw [if_neg hc] at h12
          cases h12.2
        have hg : sortedNums parts = expectedNums parts.length := by
          by_contra hc
          have := h3.2
          rw [if_neg hc] at this
          cases this
        exact ⟨hnil, hL.1, hL.2.1, (ordered_iff_sorted parts).mp hord,
          (gaps_iff parts hL.2.1).mp hg⟩
      · rintro ⟨-, hrange, hnodup, hsorted, hmem⟩
        rw [validateParts, if_neg hnil']
        rw [hloop.mpr ⟨hrange, hnodup, by simp⟩,
          if_pos ((ordered_iff_sorted parts).mpr hsorted),
          if_pos ((gaps_iff parts hnodup).mpr hmem)]
        rfl
  · intro hne req hparts
    cases h : validateCompleteUploadRequest req with
    | error e => exact ⟨e, rfl⟩
    | ok u =>
      exfalso
      rw [validateCompleteUploadRequest] at h
      split_ifs at h <;> first
      | exact Except.noConfusion h
      | simp_all [hparts]

/-- A well-formed two-part completion list (32-character tags). -/
def demoParts : List UploadPart :=
  [⟨1, List.replicate 32 'a'⟩, ⟨2, List.replicate 32 'b'⟩]

/-- An out-of-order parts list (the caller must submit sorted). -/
def demoPartsUnsorted : List UploadPart :=
  [⟨2, List.replicate 32 'a'⟩, ⟨1, List.replicate 32 'b'⟩]

/-- A completion request carrying the out-of-order parts list. -/
def reqUnsorted : CompleteUploadRequest :=
  ⟨"123e4567-e89b-42d3-a456-426614174000".data,
    "uploads/alice/visual/2025/01/02/g1/video.mp4".data,
    "upload-id-1234567890".data, demoPartsUnsorted⟩

/-- Witness for C2: the sorted contiguous list passes validation and
satisfies every condition; the out-of-order list makes the completion
request fail. -/
theorem validateParts_characterization_witness :
    (∀ p ∈ demoParts, etagGood p) ∧
    (demoParts ≠ [] ∧
      (∀ p ∈ demoParts, 1 ≤ p.partNumber ∧ p.partNumber ≤ 10000) ∧
      (partNums demoParts).Nodup ∧
      (partNums demoParts).Sorted (· ≤ ·) ∧
      ∀ k : Int, k ∈ partNums demoParts ↔ 1 ≤ k ∧ k ≤ (demoParts.length : Int)) ∧
    (∀ p ∈ demoPartsUnsorted, etagGood p) ∧
    validateParts demoPartsUnsorted ≠ [] ∧
    (∃ errs, validateCompleteUploadRequest reqUnsorted = .error errs) :=
  ⟨by decide,
    (validateParts_characterization demoParts (by decide)).1.mp (by decide),
    by decide,
    by decide,
    (validateParts_characterization demoPartsUnsorted (by decide)).2
      (by decide) reqUnsorted rfl⟩

/-! ## Claim C8 — lemmas about the sanitizer's building blocks -/

theorem charToNat_inj {c d : Char} (h : c.toNat = d.toNat) : c = d := by
  have h1 : Char.ofNat c.toNat = Char.ofNat d.toNat := by rw [h]
  rwa [Char.ofNat_toNat, Char.ofNat_toNat] at h1

theorem alnum_isFilenameBodyChar {c : Char} (h : isAsciiAlnum c = true) :
    isFilenameBodyChar c = true := by
  simp [isFilenameBodyChar, h]

theorem alnum_not_ws {c : Char} (h : isAsciiAlnum c = true) :
    isJsWs c = false := by
  simp only [isAsciiAlnum, Bool.or_eq_true, Bool.and_eq_true,
    decide_eq_true_eq] at h
  rw [← Bool.not_eq_true]
  simp only [isJsWs, Bool.or_eq_true, decide_eq_true_eq]
  omega

theorem body_ws_is_space {c : Char} (hb : isFilenameBodyChar c = true)
    (hw : isJsWs c = true) : c = ' ' := by
  simp only [isFilenameBodyChar, isAsciiAlnum, Bool.or_eq_true,
    Bool.and_eq_true, decide_eq_true_eq] at hb
  simp only [isJsWs, Bool.or_eq_true, decide_eq_true_eq] at hw
  have : c.toNat = 32 := by omega
  exact charToNat_inj (by simpa using this)

theorem body_not_control {c : Char} (hb : isFilenameBodyChar c = true) :
    isControlChar c = false := by
  simp only [isFilenameBodyChar, isAsciiAlnum, Bool.or_eq_true,
    Bool.and_eq_true, decide_eq_true_eq] at hb
  rw [← Bool.not_eq_true]
  simp only [isControlChar, Bool.or_eq_true, decide_eq_true_eq]
  omega

theorem body_not_lt {c : Char} (hb : isFilenameBodyChar c = true) : c ≠ '<' := by
  rintro rfl
  exact absurd hb (by decide)

theorem body_not_backslash {c : Char} (hb : isFilenameBodyChar c = true) :
    c ≠ '\\' := by
  rintro rfl
  exact absurd hb (by decide)

theorem body_not_nul {c : Char} (hb : isFilenameBodyChar c = true) :
    c ≠ Char.ofNat 0 := by
  rintro rfl
  exact absurd hb (by decide)

/-- JS `trim` is the identity on a string whose first and last characters
are not whitespace. -/
theorem trimStr_eq_self {s : Str}
    (hh : ∀ c, s.head? = some c → isJsWs c = false)
    (hl : ∀ c, s.getLast? = some c → isJsWs c = false) : trimStr s = s := by
  unfold trimStr
  have h1 : s.dropWhile isJsWs = s := by
    cases hs : s with
    | nil => rfl
    | cons a rest =>
      rw [List.dropWhile_cons_of_neg]
      simp [hh a (by rw [hs]; rfl)]
  rw [h1]
  have h2 : s.reverse.dropWhile isJsWs = s.reverse := by
    cases hs : s.reverse with
    | nil => rfl
    | cons a rest =>
      rw [List.dropWhile_cons_of_neg]
      have : s.getLast? = some a := by
        rw [← List.head?_reverse, hs]
        rfl
      simp [hl a this]
  rw [h2, List.reverse_reverse]

theorem length_trimStr_le (s : Str) : (trimStr s).length ≤ s.length := by
  unfold trimStr
  calc ((s.dropWhile isJsWs).reverse.dropWhile isJsWs).reverse.length
      = ((s.dropWhile isJsWs).reverse.dropWhile isJsWs).length := by
        rw [List.length_reverse]
    _ ≤ (s.dropWhile isJsWs).reverse.length := (List.dropWhile_suffix _).sublist.length_le
    _ = (s.dropWhile isJsWs).length := by rw [List.length_reverse]
    _ ≤ s.length := (List.dropWhile_suffix _).sublist.length_le

/-- The tag scanner is the identity on a string without `'<'`. -/
theorem removeTagsAux_eq_self : ∀ (fuel : Nat) (s : Str),
    '<' ∉ s → removeTagsAux fuel s = s := by
  intro fuel
  induction fuel with
  | zero => intro s _; rfl
  | succ n ih =>
    intro s hs
    cases s with
    | nil => rfl
    | cons c rest =>
      have hc : ¬c = '<' := fun h => hs (by simp [h])
      rw [removeTagsAux, if_neg (by simp [hc])]
      rw [ih rest (fun h => hs (by simp [h]))]

theorem removeTags_eq_self {s : Str} (hs : '<' ∉ s) : removeTags s = s :=
  removeTagsAux_eq_self s.length s hs

theorem length_removeTagsAux_le : ∀ (fuel : Nat) (s : Str),
    (removeTagsAux fuel s).length ≤ s.length := by
  intro fuel
  induction fuel with
  | zero => intro s; exact Nat.le_refl _
  | succ n ih =>
    intro s
    cases s with
    | nil => exact Nat.le_refl _
    | cons c rest =>
      rw [removeTagsAux]
      split
      · calc (removeTagsAux n (dropThroughGt rest)).length
            ≤ (dropThroughGt rest).length := ih _
          _ ≤ rest.length := by
              unfold dropThroughGt
              calc ((rest.dropWhile (· ≠ '>')).drop 1).length
                  ≤ (rest.dropWhile (· ≠ '>')).length := by
                    rw [List.length_drop]; omega
                _ ≤ rest.length := (List.dropWhile_suffix _).sublist.length_le
          _ ≤ (c :: rest).length := by simp
      · simpa using ih rest

theorem length_removeTags_le (s : Str) : (removeTags s).length ≤ s.length :=
  length_removeTagsAux_le s.length s

theorem length_collapseRunsAux_le (repl : Char) :
    ∀ (s : Str) (prev : Bool), (collapseRunsAux repl prev s).length ≤ s.length := by
  intro s
  induction s with
  | nil => intro prev; exact Nat.le_refl _
  | cons c rest ih =>
    intro prev
    rw [collapseRunsAux]
    split
    · split
      · simpa using Nat.le_succ_of_le (ih true)
      · simpa using ih true
    · simpa using ih false

/-- No two adjacent whitespace characters. -/
def wsPairFree : Str → Prop :=
  List.Chain' (fun a b => ¬(isJsWs a = true ∧ isJsWs b = true))

theorem collapse_ws_space :
    ∀ (s : Str) (prev : Bool) (c : Char), c ∈ collapseRunsAux ' ' prev s →
      isJsWs c = true → c = ' ' := by
  intro s
  induction s with
  | nil => intro prev c hc; simp [collapseRunsAux] at hc
  | cons d rest ih =>
    intro prev c hc hw
    rw [collapseRunsAux] at hc
    by_cases hd : isJsWs d = true
    · rw [if_pos hd] at hc
      rcases List.mem_append.mp hc with h1 | h2
      · rcases prev with _ | _
        · simpa using (List.mem_singleton.mp (by simpa using h1))
        · simp at h1
      · exact ih true c h2 hw
    · rw [if_neg hd] at hc
      rcases List.mem_cons.mp hc with rfl | h2
      · exact absurd hw (by simp [hd])
      · exact ih false c h2 hw

theorem collapse_head_true :
    ∀ (s : Str) (c : Char), (collapseRunsAux ' ' true s).head? = some c →
      isJsWs c = false := by
  intro s
  induction s with
  | nil => intro c hc; simp [collapseRunsAux] at hc
  | cons d rest ih =>
    intro c hc
    rw [collapseRunsAux] at hc
    by_cases hd : isJsWs d = true
    · rw [if_pos hd] at hc
      exact ih c (by simpa using hc)
    · rw [if_neg hd] at hc
      have : d = c := by simpa using hc
      subst this
      simpa using hd

theorem collapse_chain' :
    ∀ (s : Str) (prev : Bool), wsPairFree (collapseRunsAux ' ' prev s) := by
  intro s
  induction s with
  | nil => intro prev; exact List.chain'_nil
  | cons d rest ih =>
    intro prev
    rw [collapseRunsAux]
    by_cases hd : isJsWs d = true
    · rw [if_pos hd]
      rcases prev with _ | _
      · show wsPairFree (' ' :: collapseRunsAux ' ' true rest)
        rw [wsPairFree, List.chain'_cons']
        refine ⟨?_, ih true⟩
        intro y hy
        have := collapse_head_true rest y hy
        simp [this]
      · show wsPairFree (collapseRunsAux ' ' true rest)
        exact ih true
    · rw [if_neg hd]
      rw [wsPairFree, List.chain'_cons']
      refine ⟨?_, ih false⟩
      intro y hy
      simp [hd]

theorem collapse_eq_self :
    ∀ s : Str, (∀ c ∈ s, isJsWs c = true → c = ' ') → wsPairFree s →
      collapseRunsAux ' ' false s = s ∧
        ((∀ c, s.head? = some c → isJsWs c = false) →
          collapseRunsAux ' ' true s = s) := by
  intro s
  induction s with
  | nil => intro _ _; exact ⟨rfl, fun _ => rfl⟩
  | cons d rest ih =>
    intro hws hchain
    rw [wsPairFree, List.chain'_cons'] at hchain
    obtain ⟨hrel, hchain'⟩ := hchain
    obtain ⟨ihf, iht⟩ := ih (fun c hc hw => hws c (by simp [hc]) hw) hchain'
    by_cases hd : isJsWs d = true
    · have hd' : d = ' ' := hws d (by simp) hd
      have hresttrue : collapseRunsAux ' ' true rest = rest := by
        apply iht
        intro c hc
        have := hrel c hc
        rw [← Bool.not_eq_true]
        intro hwc
        exact this ⟨hd, hwc⟩
      constructor
      · rw [collapseRunsAux, if_pos hd]
        simp [hresttrue, hd']
      · intro hh
        exact absurd (hh d rfl) (by simp [hd])
    · constructor
      · rw [collapseRunsAux, if_neg hd, ihf]
      · intro _
        rw [collapseRunsAux, if_neg hd, ihf]

theorem wsPairFree_trimStr {s : Str} (h : wsPairFree s) :
    wsPairFree (trimStr s) := by
  unfold trimStr
  have hsymm : ∀ (u : Str), wsPairFree u → wsPairFree u.reverse := by
    intro u hu
    rw [wsPairFree, List.chain'_reverse]
    exact List.Chain'.imp (fun a b hab => fun ⟨x, y⟩ => hab ⟨y, x⟩) hu
  have h1 : wsPairFree (s.dropWhile isJsWs) :=
    List.Chain'.suffix h (List.dropWhile_suffix _)
  have h2 := hsymm _ h1
  have h3 : wsPairFree ((s.dropWhile isJsWs).reverse.dropWhile isJsWs) :=
    List.Chain'.suffix h2 (List.dropWhile_suffix _)
  exact hsymm _ h3

theorem mem_trimStr_subset {s : Str} {c : Char} (h : c ∈ trimStr s) : c ∈ s := by
  unfold trimStr at h
  rw [List.mem_reverse] at h
  have h1 := (List.dropWhile_suffix (l := (s.dropWhile isJsWs).reverse)
    isJsWs).sublist.subset h
  rw [List.mem_reverse] at h1
  exact (List.dropWhile_suffix (l := s) isJsWs).sublist.subset h1

theorem isPrefixOf_subset :
    ∀ (p s : Str), p.isPrefixOf s = true → ∀ c ∈ p, c ∈ s := by
  intro p
  induction p with
  | nil => intro s _ c hc; simp at hc
  | cons a as ih =>
    intro s h c hc
    cases s with
    | nil => simp [List.isPrefixOf] at h
    | cons b bs =>
      rw [List.isPrefixOf, Bool.and_eq_true] at h
      have hab : a = b := by simpa using h.1
      rcases List.mem_cons.mp hc with rfl | hc'
      · simp [hab]
      · exact List.mem_cons.mpr (Or.inr (ih bs h.2 c hc'))

theorem isSubstringOf_subset :
    ∀ (pat s : Str), isSubstringOf pat s = true → ∀ c ∈ pat, c ∈ s := by
  intro pat s
  induction s with
  | nil =>
    intro h c hc
    rw [isSubstringOf] at h
    have : pat = [] := by simpa using h
    subst this
    simp at hc
  | cons d rest ih =>
    intro h c hc
    rw [isSubstringOf, Bool.or_eq_true] at h
    rcases h with h1 | h2
    · exact isPrefixOf_subset pat (d :: rest) h1 c hc
    · exact List.mem_cons.mpr (Or.inr (ih h2 c hc))

theorem lowerChar_fix_nonletter (x : Char)
    (hx : x.toNat < 97 ∨ 122 < x.toNat) : ∀ c, lowerChar c = x → c = x := by
  intro c h
  unfold lowerChar at h
  split at h <;> first
  | exact h
  | (exfalso; rw [← h] at hx; revert hx; decide)

theorem isPrefixOf_lower_fixed :
    ∀ (p t : Str), (∀ x ∈ p, ∀ c, lowerChar c = x → c = x) →
      p.isPrefixOf (lowerStr t) = true → p.isPrefixOf t = true := by
  intro p
  induction p with
  | nil => intro t _ _; simp [List.isPrefixOf]
  | cons x ps ih =>
    intro t hfix h
    cases t with
    | nil => simp [lowerStr, List.isPrefixOf] at h
    | cons c cs =>
      rw [show lowerStr (c :: cs) = lowerChar c :: lowerStr cs from rfl,
        List.isPrefixOf, Bool.and_eq_true] at h
      have hx : x = lowerChar c := by simpa using h.1
      have hcx : c = x := hfix x (by simp) c hx.symm
      rw [List.isPrefixOf, Bool.and_eq_true]
      exact ⟨by simp [hcx], ih cs (fun y hy => hfix y (by simp [hy])) h.2⟩

theorem isSubstringOf_lower_fixed :
    ∀ (p t : Str), (∀ x ∈ p, ∀ c, lowerChar c = x → c = x) →
      isSubstringOf p (lowerStr t) = true → isSubstringOf p t = true := by
  intro p t
  induction t with
  | nil => intro _ h; exact h
  | cons c cs ih =>
    intro hfix h
    rw [show lowerStr (c :: cs) = lowerChar c :: lowerStr cs from rfl,
      isSubstringOf, Bool.or_eq_true] at h
    rw [isSubstringOf, Bool.or_eq_true]
    rcases h with h1 | h2
    · exact Or.inl (isPrefixOf_lower_fixed p (c :: cs) hfix h1)
    · exact Or.inr (ih hfix h2)

theorem no_bad_char_sub (t : Str) (x : Char)
    (hxnl : x.toNat < 97 ∨ 122 < x.toNat)
    (hbodyx : isFilenameBodyChar x = false)
    (hbody : ∀ c ∈ t, isFilenameBodyChar c = true)
    (p : Str) (hx : x ∈ lowerStr p) :
    ¬isSubstringOf (lowerStr p) (lowerStr t) = true := by
  intro hsub
  have hmem := isSubstringOf_subset _ _ hsub x hx
  obtain ⟨c, hc, he⟩ := List.mem_map.mp hmem
  have hcx := lowerChar_fix_nonletter x hxnl c he
  rw [hcx] at hc
  have := hbody _ hc
  rw [hbodyx] at this
  cases this

/-- The traversal scan passes on a string over the filename body class
that contains no `"../"` substring: the encoded patterns all need `'%'` or
a backslash, which the class excludes. -/
theorem containsTraversal_false (t : Str)
    (hbody : ∀ c ∈ t, isFilenameBodyChar c = true)
    (hdd : isSubstringOf "../".data t = false) :
    containsTraversal t = false := by
  have hfixdds : ∀ x ∈ "../".data, ∀ c, lowerChar c = x → c = x := by
    intro x hx
    have : x = '.' ∨ x = '.' ∨ x = '/' := by simpa using hx
    rcases this with rfl | rfl | rfl <;>
      exact lowerChar_fix_nonletter _ (by decide)
  rw [← Bool.not_eq_true]
  intro h
  rw [containsTraversal, List.any_eq_true] at h
  obtain ⟨p, hp, hsub⟩ := h
  have hp' := hp
  simp only [pathTraversalPatterns, List.mem_cons, List.not_mem_nil,
    or_false] at hp'
  rcases hp' with rfl | rfl | rfl | rfl | rfl | rfl | rfl | rfl | rfl | rfl | rfl | rfl
  · have hdd' : isSubstringOf "../".data t = true :=
      isSubstringOf_lower_fixed "../".data t hfixdds hsub
    rw [hdd] at hdd'
    cases hdd'
  · exact no_bad_char_sub t '\\' (by decide) (by decide) hbody _ (by decide) hsub
  · exact no_bad_char_sub t '%' (by decide) (by decide) hbody _ (by decide) hsub
  · exact no_bad_char_sub t '%' (by decide) (by decide) hbody _ (by decide) hsub
  · exact no_bad_char_sub t '%' (by decide) (by decide) hbody _ (by decide) hsub
  · exact no_bad_char_sub t '%' (by decide) (by decide) hbody _ (by decide) hsub
  · exact no_bad_char_sub t '%' (by decide) (by decide) hbody _ (by decide) hsub
  · exact no_bad_char_sub t '%' (by decide) (by decide) hbody _ (by decide) hsub
  · exact no_bad_char_sub t '%' (by decide) (by decide) hbody _ (by decide) hsub
  · exact no_bad_char_sub t '%' (by decide) (by decide) hbody _ (by decide) hsub
  · exact no_bad_char_sub t '%' (by decide) (by decide) hbody _ (by decide) hsub
  · exact no_bad_char_sub t '%' (by decide) (by decide) hbody _ (by decide) hsub

theorem lastIndexOfChar_spec :
    ∀ (s : Str) (c : Char) (i : Nat), lastIndexOfChar c s = some i →
      i < s.length ∧ s[i]? = some c := by
  intro s c
  induction s with
  | nil => intro i h; cases h
  | cons a rest ih =>
    intro i h
    rw [lastIndexOfChar] at h
    cases hr : lastIndexOfChar c rest with
    | some j =>
      rw [hr] at h
      have hi : i = j + 1 := by
        have := h
        simp at this
        omega
      subst hi
      obtain ⟨hj1, hj2⟩ := ih j hr
      exact ⟨by simpa using hj1, by simpa using hj2⟩
    | none =>
      rw [hr] at h
      by_cases hac : a = c
      · rw [if_pos hac] at h
        have : i = 0 := by simpa using h.symm
        subst this
        exact ⟨by simp, by simp [hac]⟩
      · rw [if_neg hac] at h
        cases h

theorem matchFilenamePattern_facts {t : Str} (h : matchFilenamePattern t = true) :
    (∀ c ∈ t, isFilenameBodyChar c = true) ∧
    (∀ c, t.head? = some c → isAsciiAlnum c = true) ∧
    (∀ c, t.getLast? = some c → isAsciiAlnum c = true) := by
  cases t with
  | nil => cases h
  | cons a rest =>
    rw [matchFilenamePattern, Bool.and_eq_true] at h
    obtain ⟨ha, hm⟩ := h
    cases hli : lastIndexOfChar '.' rest with
    | none => rw [hli] at hm; cases hm
    | some p =>
      rw [hli] at hm
      simp only [Bool.and_eq_true, Bool.not_eq_true', List.all_eq_true] at hm
      obtain ⟨⟨⟨hbne, hball⟩, hene⟩, heall⟩ := hm
      obtain ⟨hp1, hp2⟩ := lastIndexOfChar_spec rest '.' p hli
      have hdot : rest[p] = '.' := by
        have := hp2
        rwa [List.getElem?_eq_getElem hp1, Option.some_inj] at this
      have hdecomp : rest = rest.take p ++ '.' :: rest.drop (p + 1) := by
        conv_lhs => rw [← List.take_append_drop p rest]
        rw [List.drop_eq_getElem_cons hp1, hdot]
      have hextne : rest.drop (p + 1) ≠ [] := by
        simpa using hene
      refine ⟨?_, ?_, ?_⟩
      · intro c hc
        rcases List.mem_cons.mp hc with rfl | hc'
        · exact alnum_isFilenameBodyChar ha
        · rw [hdecomp] at hc'
          rcases List.mem_append.mp hc' with h1 | h2
          · exact hball c h1
          · rcases List.mem_cons.mp h2 with rfl | h3
            · decide
            · exact alnum_isFilenameBodyChar (heall c h3)
      · intro c hc
        have : a = c := by simpa using hc
        subst this
        exact ha
      · intro c hc
        have hlast2 : (rest.drop (p + 1)).getLast? = some c := by
          rw [show a :: rest = (a :: rest.take p) ++ '.' :: rest.drop (p + 1) by
            rw [List.cons_append, ← hdecomp]] at hc
          rw [List.getLast?_append] at hc
          rw [show ('.' :: rest.drop (p + 1)) = ['.'] ++ rest.drop (p + 1) from rfl,
            List.getLast?_append] at hc
          cases hg : (rest.drop (p + 1)).getLast? with
          | none =>
            exfalso
            rw [List.getLast?_eq_none_iff] at hg
            exact hextne hg
          | some z =>
            rw [hg] at hc
            simpa using hc
        exact heall c (List.mem_of_getLast?_eq_some hlast2)

theorem sanitizeFilename_ok_facts {f t : Str} (h : sanitizeFilename f = .ok t) :
    t = trimStr (collapseRuns ' '
      ((((removeTags (trimStr f)).filter (fun c => !isControlChar c)).filter
        (fun c => c ≠ Char.ofNat 0)).filter (fun c => c ≠ '\\'))) ∧
    (trimStr f).length ≤ 255 ∧
    t.head? ≠ some '.' ∧
    (t.contains '.' = true ∧ t.getLast? ≠ some '.') ∧
    matchFilenamePattern t = true ∧
    lastDotSegmentLower t ∉ dangerousExtensions := by
  simp only [sanitizeFilename] at h
  split_ifs at h with h1 h2 h3 h4 h5 h6 h7 h8
  have ht : t = trimStr (collapseRuns ' '
      ((((removeTags (trimStr f)).filter (fun c => !isControlChar c)).filter
        (fun c => c ≠ Char.ofNat 0)).filter (fun c => c ≠ '\\'))) := by
    have := h
    simp only [Except.ok.injEq] at this
    exact this.symm
  rw [← ht] at h5 h6 h7 h8
  refine ⟨ht, by omega, h5, ⟨?_, ?_⟩, ?_, h8⟩
  · cases hb : t.contains '.' with
    | false => exact absurd (by rw [hb]; rfl) h6
    | true => rfl
  · intro hc
    exact h6 (by simp [hc])
  · cases hb : matchFilenamePattern t with
    | false => exact absurd (by rw [hb]; rfl) h7
    | true => rfl

/-- Claim C8 (counterexample): the sanitizer accepts the filename
`a.\./b.mp4` — its traversal scan runs before backslash removal, and the
scan sees no traversal signature — but removing the backslash yields
`a../b.mp4`, which a second sanitizer run rejects for containing `../`.
So `sanitizeFilename (sanitizeFilename f)` raises instead of returning
`sanitizeFilename f`. -/
theorem sanitizeFilename_not_idempotent :
    sanitizeFilename "a.\\./b.mp4".data = .ok "a../b.mp4".data ∧
      (sanitizeFilename "a../b.mp4".data).isOk = false :=
  ⟨rfl, rfl⟩

/-- Claim C8 (amended): `sanitizeFilename` is idempotent on every accepted
input whose output does not contain the substring `"../"`:
re-sanitizing such an output succeeds and returns it unchanged. -/
theorem sanitizeFilename_idempotent (f t : Str)
    (h : sanitizeFilename f = .ok t)
    (hdd : isSubstringOf "../".data t = false) :
    sanitizeFilename t = .ok t := by
  obtain ⟨ht, hlen255, hhead, ⟨hcont, hlast⟩, hpat, hext⟩ :=
    sanitizeFilename_ok_facts h
  obtain ⟨hbody, hheadal, hlastal⟩ := matchFilenamePattern_facts hpat
  have htne : t ≠ [] := by
    intro h0
    rw [h0] at hpat
    cases hpat
  have htrim : trimStr t = t :=
    trimStr_eq_self (fun c hc => alnum_not_ws (hheadal c hc))
      (fun c hc => alnum_not_ws (hlastal c hc))
  have hlen : t.length ≤ 255 := by
    have l1 := length_trimStr_le (collapseRuns ' '
      ((((removeTags (trimStr f)).filter (fun c => !isControlChar c)).filter
        (fun c => c ≠ Char.ofNat 0)).filter (fun c => c ≠ '\\')))
    have l2 := length_collapseRunsAux_le ' '
      ((((removeTags (trimStr f)).filter (fun c => !isControlChar c)).filter
        (fun c => c ≠ Char.ofNat 0)).filter (fun c => c ≠ '\\')) false
    have l3 := List.length_filter_le (fun c => decide (c ≠ '\\'))
      (((removeTags (trimStr f)).filter (fun c => !isControlChar c)).filter
        (fun c => c ≠ Char.ofNat 0))
    have l4 := List.length_filter_le (fun c => decide (c ≠ Char.ofNat 0))
      ((removeTags (trimStr f)).filter (fun c => !isControlChar c))
    have l5 := List.length_filter_le (fun c => !isControlChar c)
      (removeTags (trimStr f))
    have l6 := length_removeTags_le (trimStr f)
    rw [← ht] at l1
    simp only [collapseRuns] at l1
    omega
  have hrt : removeTags t = t :=
    removeTags_eq_self (fun hm => body_not_lt (hbody _ hm) rfl)
  have hf1 : t.filter (fun c => !isControlChar c) = t :=
    List.filter_eq_self.mpr (fun c hc => by
      simp [body_not_control (hbody c hc)])
  have hf2 : t.filter (fun c => c ≠ Char.ofNat 0) = t :=
    List.filter_eq_self.mpr (fun c hc => by
      simp [body_not_nul (hbody c hc)])
  have hf3 : t.filter (fun c => c ≠ '\\') = t :=
    List.filter_eq_self.mpr (fun c hc => by
      simp [body_not_backslash (hbody c hc)])
  have htrav : containsTraversal t = false := containsTraversal_false t hbody hdd
  have hws : ∀ c ∈ t, isJsWs c = true → c = ' ' := fun c hc hw =>
    body_ws_is_space (hbody c hc) hw
  have hchain : wsPairFree t := by
    rw [ht]
    exact wsPairFree_trimStr (collapse_chain' _ false)
  have hcollapse : collapseRuns ' ' t = t := (collapse_eq_self t hws hchain).1
  simp only [sanitizeFilename]
  rw [if_neg (by simp [htne]), htrim, hrt, hf1, hf2, hf3]
  rw [if_neg (by simp [htne]), if_neg (by omega)]
  rw [htrav, if_neg (by simp)]
  rw [hcollapse, htrim]
  rw [if_neg hhead]
  rw [if_neg (by rw [hcont]; simp [hlast])]
  rw [if_neg (by simp [hpat]), if_neg hext]

/-- Witness for the amended C8: an accepted filename with collapsible
whitespace whose output is traversal-free re-sanitizes to itself. -/
theorem sanitizeFilename_idempotent_witness :
    sanitizeFilename "  my   video.mp4".data = .ok "my video.mp4".data ∧
    isSubstringOf "../".data "my video.mp4".data = false ∧
    sanitizeFilename "my video.mp4".data = .ok "my video.mp4".data :=
  ⟨rfl, by decide,
    sanitizeFilename_idempotent "  my   video.mp4".data "my video.mp4".data rfl
      (by decide)⟩
